import Mathlib

/-!
# Verification of the image acquisition and transformation pipeline

Shallow embedding of `src/lib/imageProcessor.ts` (and, for the cache-coherent
fetcher, of `downloadImage` together with the placeholder helper in
`src/lib/plaiceholder.ts`).  Pure pixel arithmetic is translated directly;
the effectful fetcher is modelled as a total function over an explicit
environment recording the outcomes of every external operation (filesystem,
network, image library, placeholder generation), with the result instrumented
by the observables the specification talks about (whether a network fetch
happened and whether the catch-all fallback produced the result).

Machine integers: all JavaScript numbers involved are non-negative integers
small enough to be exact, so they are modelled as `Nat` (differences inside
squared distances use `Int`).  The JS code compares `Math.sqrt` of integer
sums of squares bounded by `3 * 255^2 = 195075`; IEEE-754 `sqrt` is correctly
rounded hence strictly monotone on these integers (adjacent integer square
roots differ by far more than one ulp), so comparing the squared distances
over `Int` is bit-faithful to the source's comparisons.
-/

/-- One RGB sample / centroid, as in the `{ r, g, b }` objects of
`extractPaletteFromImage`. -/
structure RGB where
  r : Nat
  g : Nat
  b : Nat
deriving DecidableEq, Repr

/-- `Math.round(num / den)` for non-negative integers: JavaScript rounds
half-up, i.e. `floor(num/den + 1/2) = (2*num + den) / (2*den)` in integer
division. -/
def jsRoundDiv (num den : Nat) : Nat :=
  (2 * num + den) / (2 * den)

/-- `const sampleSize = Math.min(10000, totalPixels)` in
`extractPaletteFromImage`. -/
def sampleSize (totalPixels : Nat) : Nat :=
  min 10000 totalPixels

/-- `const sampleStep = Math.floor(totalPixels / sampleSize)` in
`extractPaletteFromImage`. -/
def sampleStep (totalPixels : Nat) : Nat :=
  totalPixels / sampleSize totalPixels

/-- The index sequence of the sampling loop
`for (let i = 0; i < totalPixels; i += sampleStep)`.  The loop is encoded
structurally with a fuel argument; `fuel = totalPixels` suffices because the
step is at least 1 whenever `totalPixels` is positive (and for
`totalPixels = 0` the loop body never runs). -/
def sampleIndicesAux (step : Nat) : Nat → Nat → Nat → List Nat
  | 0, _, _ => []
  | fuel + 1, N, i => if i < N then i :: sampleIndicesAux step fuel N (i + step) else []

/-- All indices visited by the sampling loop of `extractPaletteFromImage`. -/
def sampleIndices (totalPixels : Nat) : List Nat :=
  sampleIndicesAux (sampleStep totalPixels) totalPixels totalPixels 0

/-- The collected samples: `samples.push({ r: rawBuffer[i*4], g: rawBuffer[i*4+1],
b: rawBuffer[i*4+2] })`.  The raw buffer is a byte buffer, so it is modelled as
`Nat → Fin 256`. -/
def samplesOf (rawBuffer : Nat → Fin 256) (totalPixels : Nat) : List RGB :=
  (sampleIndices totalPixels).map fun i =>
    ⟨(rawBuffer (i * 4)).val, (rawBuffer (i * 4 + 1)).val, (rawBuffer (i * 4 + 2)).val⟩

/-- Squared Euclidean RGB distance.  The source computes
`Math.sqrt((r1-r2)^2 + (g1-g2)^2 + (b1-b2)^2)` and only ever compares two such
values with `<`; `sqrt` is strictly monotone on the integers that occur, so
the squared distance yields exactly the same comparisons. -/
def sqDist (a b : RGB) : Int :=
  ((a.r : Int) - b.r) ^ 2 + ((a.g : Int) - b.g) ^ 2 + ((a.b : Int) - b.b) ^ 2

/-- `d < minDist` where `minDist` starts as `Infinity` (modelled as `none`). -/
def ltMin (d : Int) : Option Int → Bool
  | none => true
  | some m => d < m

/-- The inner loop of the assignment step: scan the centroid list keeping the
index of the closest centroid seen so far (`minDist` / `bestCluster` in the
source, strict `<`, so the earliest centroid wins ties). -/
def bestClusterAux (s : RGB) : List RGB → Nat → Option Int → Nat → Nat
  | [], _, _, best => best
  | c :: cs, ci, minD, best =>
    if ltMin (sqDist s c) minD then bestClusterAux s cs (ci + 1) (some (sqDist s c)) ci
    else bestClusterAux s cs (ci + 1) minD best

/-- `bestCluster` computed for one sample (`minDist = Infinity`,
`bestCluster = 0` initially). -/
def bestClusterIdx (centroids : List RGB) (s : RGB) : Nat :=
  bestClusterAux s centroids 0 none 0

/-- `clusters[ci]` after the assignment step: the samples (in order) whose
nearest centroid is `ci`.  The source stores sample indices and then sums
`samples[idx]`; storing the samples themselves is the same data. -/
def clusterOf (centroids : List RGB) (samples : List RGB) (ci : Nat) : List RGB :=
  samples.filter fun s => bestClusterIdx centroids s == ci

/-- The update step for one centroid: the rounded arithmetic mean of its
cluster, or the previous value if the cluster is empty
(`if (cluster.length > 0) { ... } `). -/
def updateCentroid (cluster : List RGB) (old : RGB) : RGB :=
  if cluster.length > 0 then
    ⟨jsRoundDiv (cluster.map RGB.r).sum cluster.length,
     jsRoundDiv (cluster.map RGB.g).sum cluster.length,
     jsRoundDiv (cluster.map RGB.b).sum cluster.length⟩
  else old

/-- One k-means round: assign every sample to its nearest centroid, then
recompute each centroid from its cluster. -/
def kmeansRound (samples centroids : List RGB) : List RGB :=
  (List.range centroids.length).map fun ci =>
    updateCentroid (clusterOf centroids samples ci) (centroids.getD ci ⟨0, 0, 0⟩)

/-- `for (let iter = 0; iter < maxIterations; iter++)` — iterated k-means
rounds, no convergence check. -/
def kmeansRounds (samples : List RGB) : Nat → List RGB → List RGB
  | 0, cs => cs
  | n + 1, cs => kmeansRounds samples n (kmeansRound samples cs)

/-- Centroid initialisation: `numColors` picks of random samples
(`samples[Math.floor(Math.random() * samples.length)]`).  The random draws
are injected as a function `rand`; out-of-range draws fall back to a zero
sample the way `List.getD` does. -/
def initCentroids (samples : List RGB) (rand : Nat → Nat) (numColors : Nat) : List RGB :=
  (List.range numColors).map fun i => samples.getD (rand i) ⟨0, 0, 0⟩

/-- `((0xff << 24) | (c.r << 16) | (c.g << 8) | c.b) >>> 0` — packing a
centroid as an opaque ARGB integer.  For channel values below 256 the
JavaScript 32-bit result coincides with the `Nat` bitwise value. -/
def packARGB (c : RGB) : Nat :=
  (0xff <<< 24) ||| (c.r <<< 16) ||| (c.g <<< 8) ||| c.b

/-- `extractPaletteFromImage(rawBuffer, width, height, numColors)`: sample the
buffer, run exactly 10 k-means rounds (`maxIterations = 10`), and pack the
final centroids as opaque ARGB colors. -/
def extractPaletteFromImage (rawBuffer : Nat → Fin 256) (width height : Nat)
    (rand : Nat → Nat) (numColors : Nat) : List Nat :=
  let samples := samplesOf rawBuffer (width * height)
  (kmeansRounds samples 10 (initCentroids samples rand numColors)).map packARGB

/-- `(pixel >> 16) & 0xff` — the red channel of a packed ARGB value.  For
values below `2^32` the JavaScript signed shift followed by `& 0xff` extracts
the same bits as the `Nat` operation. -/
def chR (p : Nat) : Nat := (p >>> 16) &&& 0xff

/-- `(pixel >> 8) & 0xff` — green channel. -/
def chG (p : Nat) : Nat := (p >>> 8) &&& 0xff

/-- `pixel & 0xff` — blue channel. -/
def chB (p : Nat) : Nat := p &&& 0xff

/-- `(pixel >> 24) & 0xff` — alpha channel. -/
def chA (p : Nat) : Nat := (p >>> 24) &&& 0xff

/-- Squared Euclidean RGB distance between a (dithered) pixel and a palette
color, alpha ignored — the `dist` of the quantization loop in
`applyDithering` (again modulo the strictly monotone `Math.sqrt`). -/
def pixDist (pixel c : Nat) : Int :=
  ((chR pixel : Int) - chR c) ^ 2 + ((chG pixel : Int) - chG c) ^ 2
    + ((chB pixel : Int) - chB c) ^ 2

/-- The quantization scan over the palette: `minDist = Infinity`,
`nearestColor = palette[0]`, strict `<` update. -/
def nearestAux (pixel : Nat) : List Nat → Option Int → Nat → Nat
  | [], _, best => best
  | c :: cs, minD, best =>
    if ltMin (pixDist pixel c) minD then nearestAux pixel cs (some (pixDist pixel c)) c
    else nearestAux pixel cs minD best

/-- `nearestColor` for one pixel of the quantization loop in `applyDithering`. -/
def nearestColor (palette : List Nat) (pixel : Nat) : Nat :=
  nearestAux pixel palette none (palette.getD 0 0)

/-- `quantizedData[i] = nearestColor` for every pixel of the dithered buffer
(the dithered buffer itself comes from the external `ditherWith(ATKINSON, ...)`
call and is therefore an arbitrary function). -/
def quantizedData (palette : List Nat) (dithered : Nat → Nat) (i : Nat) : Nat :=
  nearestColor palette (dithered i)

/-- The ARGB→RGBA unpacking writing the output buffer of `applyDithering`:
byte `4*i` is R, `4*i+1` is G, `4*i+2` is B, `4*i+3` is A. -/
def rgbaByte (q : Nat → Nat) (j : Nat) : Nat :=
  let argb := q (j / 4)
  if j % 4 = 0 then chR argb
  else if j % 4 = 1 then chG argb
  else if j % 4 = 2 then chB argb
  else chA argb

/-- `MAX_WIDTH = 840` in `applyDithering`. -/
def MAX_WIDTH : Nat := 840

/-- The target-dimension computation of `applyDithering`:
`if (originalWidth > MAX_WIDTH) { targetWidth = MAX_WIDTH; targetHeight =
Math.round((originalHeight * MAX_WIDTH) / originalWidth); }`. -/
def targetDims (originalWidth originalHeight : Nat) : Nat × Nat :=
  if originalWidth > MAX_WIDTH then
    (MAX_WIDTH, jsRoundDiv (originalHeight * MAX_WIDTH) originalWidth)
  else (originalWidth, originalHeight)

/-- Modelled from the spec: the plain (non-dither) path delegates resizing to
the external image library (`sharp(buffer).resize(840, null, { fit: 'inside',
withoutEnlargement: true })`), whose behaviour the spec states as capping the
width at 840 with aspect-preserving rounding
(`round(originalOther * cap / originalCapped)`) and no upscaling of
smaller-than-cap images. -/
def plainResizeDims (originalWidth originalHeight : Nat) : Nat × Nat :=
  if originalWidth > 840 then
    (840, jsRoundDiv (originalHeight * 840) originalWidth)
  else (originalWidth, originalHeight)

/-- `url.split('?')[0]` — everything before the first `'?'`. -/
def stripQuery (s : String) : String :=
  ⟨s.data.takeWhile fun c => c != '?'⟩

/-- Outcome of `fetch(url)` when the promise resolves: `response.ok` and
whether `response.body` is non-null.  A rejected promise (network error) is
modelled as `none` at the `Env.fetch` level. -/
structure FetchResp where
  ok : Bool
  hasBody : Bool
deriving DecidableEq, Repr

/-- Environment of one `downloadImage` run: the outcome of every external
operation it can perform.  `md5hex` stands for
`createHash('md5').update(s).digest('hex')` (an opaque function of its input —
the only property `downloadImage` relies on is that it is a function).
`processOk` is the success of the selected processing path: on the dither path
the temp-file write, `applyDithering` (decode, resize, encode, file write) and
the temp cleanup; on the plain path the `sharp(...).resize(...).webp(...)
.toFile(...)` chain.  `placeholder` is `getImagePlaceholder` from
`src/lib/plaiceholder.ts`, which performs its own I/O and throws on failure
(`none`); on success it resolves to the base64 string. -/
structure Env where
  ditherImages : Bool
  cwd : String
  md5hex : String → String
  fileExists : String → Bool
  mkdirOk : Bool
  fetch : String → Option FetchResp
  processOk : Bool
  placeholder : String → Option String

/-- The MD5-of-stripped-URL content address (`hash` in `downloadImage`). -/
def imageKey (env : Env) (url : String) : String :=
  env.md5hex (stripQuery url)

/-- `const filename = hash + '.webp'`. -/
def filenameOf (env : Env) (url : String) : String :=
  imageKey env url ++ ".webp"

/-- `path.join(process.cwd(), 'public', 'images')`. -/
def publicImagesDir (env : Env) : String :=
  env.cwd ++ "/public/images"

/-- `const filepath = path.join(publicImagesDir, filename)`. -/
def filepathOf (env : Env) (url : String) : String :=
  publicImagesDir env ++ "/" ++ filenameOf env url

/-- `const fileURL = '/images/' + filename`. -/
def fileURLOf (env : Env) (url : String) : String :=
  "/images/" ++ filenameOf env url

/-- The value `downloadImage` returns, instrumented with two observables:
`fetched` — whether `fetch(url)` was invoked — and `fellBack` — whether the
result was produced by the `catch` handler. -/
structure DLResult where
  url : String
  blurDataURL : Option String
  fetched : Bool
  fellBack : Bool
deriving DecidableEq, Repr

/-- Shallow embedding of `downloadImage`.  Every `throw` inside the `try`
block transfers control to the single `catch` handler, which returns
`{ url }` — the original URL with no `blurDataURL`; this is encoded by each
failing branch returning that record directly.  Branch order follows the
source: directory creation, cache-hit check (with placeholder generation),
fetch, `response.ok`, `response.body`, processing, placeholder generation.
A failure of `response.arrayBuffer()` is observationally identical to a
rejected fetch and is folded into `Env.fetch = none`. -/
def downloadImage (env : Env) (url : String) : DLResult :=
  let filepath := filepathOf env url
  let fileURL := fileURLOf env url
  if !env.fileExists (publicImagesDir env) && !env.mkdirOk then
    ⟨url, none, false, true⟩
  else if env.fileExists filepath then
    match env.placeholder filepath with
    | some b => ⟨fileURL, some b, false, false⟩
    | none => ⟨url, none, false, true⟩
  else
    match env.fetch url with
    | none => ⟨url, none, true, true⟩
    | some resp =>
      if !resp.ok then ⟨url, none, true, true⟩
      else if !resp.hasBody then ⟨url, none, true, true⟩
      else if !env.processOk then ⟨url, none, true, true⟩
      else
        match env.placeholder filepath with
        | some b => ⟨fileURL, some b, true, false⟩
        | none => ⟨url, none, true, true⟩

/-- The environment after a run that created the cache file: `fileExists`
additionally answers true at the cache path of `url`; nothing else changes. -/
def cacheAdded (env : Env) (url : String) : Env :=
  ⟨env.ditherImages, env.cwd, env.md5hex,
   fun p => (p == filepathOf env url) || env.fileExists p,
   env.mkdirOk, env.fetch, env.processOk, env.placeholder⟩

/-- A fully succeeding environment (used to exercise the theorems on concrete
inputs). -/
def envHappy : Env :=
  ⟨false, "", fun _ => "aaaa", fun _ => false, true,
   fun _ => some ⟨true, true⟩, true, fun _ => some "blur"⟩

/-- An environment with the cache file present but placeholder generation
failing. -/
def envPhFail : Env :=
  ⟨false, "", fun _ => "aaaa", fun _ => true, true,
   fun _ => some ⟨true, true⟩, true, fun _ => none⟩

/-! ## Supporting lemmas -/

theorem takeWhile_ne_append (l r : List Char) (h : ∀ c ∈ l, (c != '?') = true) :
    (l ++ '?' :: r).takeWhile (fun c => c != '?') = l := by
  induction l with
  | nil => simp [List.takeWhile_cons]
  | cons c l ih =>
    have hc : (c != '?') = true := h c (List.mem_cons_self c l)
    simp only [List.cons_append, List.takeWhile_cons, hc, if_true]
    rw [ih fun x hx => h x (List.mem_cons_of_mem c hx)]

theorem stripQuery_append_query (base q : String)
    (h : base.data.all (fun c => c != '?') = true) :
    stripQuery (base ++ "?" ++ q) = base := by
  unfold stripQuery
  rw [String.data_append, String.data_append]
  have hq : ("?" : String).data = ['?'] := rfl
  rw [hq, List.append_assoc]
  show String.mk ((base.data ++ '?' :: q.data).takeWhile fun c => c != '?') = base
  rw [takeWhile_ne_append base.data q.data (by simpa [List.all_eq_true] using h)]

theorem jsRoundDiv_eq_floor (num den : Nat) (hden : 0 < den) :
    jsRoundDiv num den = ⌊(num : ℚ) / den + 1 / 2⌋₊ := by
  have hq : (num : ℚ) / den + 1 / 2 = ((2 * num + den : ℕ) : ℚ) / ((2 * den : ℕ) : ℚ) := by
    have h0 : (den : ℚ) ≠ 0 := Nat.cast_ne_zero.mpr hden.ne'
    push_cast
    field_simp
    ring
  rw [hq, Nat.floor_div_eq_div]
  rfl

/-! ## Claim theorems: dimensions -/

/-- C5: for original width above 840 the output width is 840 and the output
height is `round(originalHeight * 840 / originalWidth)` (round-half-up on the
exact rational); for width at most 840 the dimensions are unchanged.  This
holds for the dither path (`targetDims`, from `applyDithering`) and the plain
path (`plainResizeDims`, the spec-modelled library resize). -/
theorem resize_dims_spec (w h : Nat) :
    (MAX_WIDTH < w →
      (targetDims w h).1 = 840 ∧
      (targetDims w h).2 = ⌊(h * 840 : ℚ) / w + 1 / 2⌋₊ ∧
      plainResizeDims w h = targetDims w h) ∧
    (w ≤ MAX_WIDTH → targetDims w h = (w, h) ∧ plainResizeDims w h = (w, h)) := by
  have hMW : MAX_WIDTH = 840 := rfl
  constructor
  · intro hw
    rw [hMW] at hw
    have hw0 : 0 < w := lt_trans (by norm_num) hw
    have h1 : targetDims w h = (840, jsRoundDiv (h * 840) w) := by
      simp [targetDims, MAX_WIDTH, hw]
    have h2 : plainResizeDims w h = (840, jsRoundDiv (h * 840) w) := by
      simp [plainResizeDims, hw]
    refine ⟨by rw [h1], ?_, by rw [h1, h2]⟩
    rw [h1, jsRoundDiv_eq_floor (h * 840) w hw0]
    norm_num
  · intro hw
    rw [hMW] at hw
    have hw2 : ¬ (840 < w) := not_lt.mpr hw
    exact ⟨by simp [targetDims, MAX_WIDTH, hw2], by simp [plainResizeDims, hw2]⟩

/-- Exercises `resize_dims_spec` on the spec's end-to-end 1680×1200 example
and on an 800×600 no-upscaling example. -/
theorem resize_dims_spec_witness :
    (MAX_WIDTH < 1680 ∧
      (targetDims 1680 1200).1 = 840 ∧
      (targetDims 1680 1200).2 = ⌊(1200 * 840 : ℚ) / 1680 + 1 / 2⌋₊ ∧
      plainResizeDims 1680 1200 = targetDims 1680 1200) ∧
    (800 ≤ MAX_WIDTH ∧ targetDims 800 600 = (800, 600) ∧ plainResizeDims 800 600 = (800, 600)) :=
  ⟨⟨by decide, (resize_dims_spec 1680 1200).1 (by decide)⟩,
   ⟨by decide, (resize_dims_spec 800 600).2 (by decide)⟩⟩

/-- C9 counterexample: a 100×2000 image (height exceeds both the width and
840) is left at 100×2000 by the dimension computation of `applyDithering` —
the longer dimension is not capped at 840. -/
theorem targetDims_height_uncapped_cex :
    100 < 2000 ∧ 840 < 2000 ∧ targetDims 100 2000 = (100, 2000) := by
  refine ⟨by norm_num, by norm_num, ?_⟩
  simp [targetDims, MAX_WIDTH]

/-- C9 amended: the decoder caps only the width at 840 (with aspect-preserving
rounding, per `resize_dims_spec`); the height is never capped, so whenever the
original width is at most 840 the dimensions are returned unchanged, even if
the height exceeds 840. -/
theorem targetDims_width_only_cap (w h : Nat) (hw : w ≤ MAX_WIDTH) :
    targetDims w h = (w, h) ∧ plainResizeDims w h = (w, h) := by
  have hw2 : ¬ (840 < w) := not_lt.mpr hw
  exact ⟨by simp [targetDims, MAX_WIDTH, hw2], by simp [plainResizeDims, hw2]⟩

/-- Exercises `targetDims_width_only_cap` on the 100×2000 tall image. -/
theorem targetDims_width_only_cap_witness :
    100 ≤ MAX_WIDTH ∧ targetDims 100 2000 = (100, 2000) ∧ plainResizeDims 100 2000 = (100, 2000) :=
  ⟨by decide, targetDims_width_only_cap 100 2000 (by decide)⟩

/-- C3: URLs that agree before their first `'?'` have the same stripped form,
hence the same MD5 `ImageKey`, the same cache file path and the same public
URL; in particular two URLs built from the same query-free base with
different query strings do. -/
theorem imageKey_ignores_query (env : Env) (u1 u2 : String)
    (h : stripQuery u1 = stripQuery u2) :
    (imageKey env u1 = imageKey env u2 ∧
      filepathOf env u1 = filepathOf env u2 ∧
      fileURLOf env u1 = fileURLOf env u2) ∧
    (∀ base q1 q2 : String, base.data.all (fun c => c != '?') = true →
      imageKey env (base ++ "?" ++ q1) = imageKey env (base ++ "?" ++ q2)) := by
  constructor
  · refine ⟨?_, ?_, ?_⟩ <;> simp [imageKey, filepathOf, fileURLOf, filenameOf, h]
  · intro base q1 q2 hb
    simp [imageKey, stripQuery_append_query base q1 hb, stripQuery_append_query base q2 hb]

/-- Exercises `imageKey_ignores_query` on two URLs differing only in a token
query parameter. -/
theorem imageKey_ignores_query_witness :
    stripQuery "https://h/img.png?tok=1" = stripQuery "https://h/img.png?tok=2" ∧
    imageKey envHappy "https://h/img.png?tok=1" = imageKey envHappy "https://h/img.png?tok=2" ∧
    filepathOf envHappy "https://h/img.png?tok=1" = filepathOf envHappy "https://h/img.png?tok=2" ∧
    fileURLOf envHappy "https://h/img.png?tok=1" = fileURLOf envHappy "https://h/img.png?tok=2" :=
  ⟨by decide,
   (imageKey_ignores_query envHappy "https://h/img.png?tok=1" "https://h/img.png?tok=2"
      (by decide)).1⟩

/-! ## Claim theorems: sampling (C6) -/

theorem sampleIndicesAux_length (step : Nat) (hstep : 0 < step) :
    ∀ fuel N i, N - i ≤ fuel →
      (sampleIndicesAux step fuel N i).length = (N - i + step - 1) / step := by
  intro fuel
  induction fuel with
  | zero =>
    intro N i h
    simp only [sampleIndicesAux, List.length_nil]
    have h0 : N - i = 0 := by omega
    rw [h0]
    exact (Nat.div_eq_of_lt (by omega)).symm
  | succ fuel ih =>
    intro N i h
    by_cases hi : i < N
    · simp only [sampleIndicesAux, if_pos hi, List.length_cons]
      rw [ih N (i + step) (by omega)]
      have hd : N - i + step - 1 = (N - i - 1) + step := by omega
      rw [hd, Nat.add_div_right _ hstep]
      congr 1
      by_cases hs : step ≤ N - i
      · have he : N - (i + step) + step - 1 = N - i - 1 := by omega
        rw [he]
      · have h1 : N - (i + step) = 0 := by omega
        rw [h1]
        rw [Nat.div_eq_of_lt (by omega), Nat.div_eq_of_lt (by omega)]
    · simp only [sampleIndicesAux, if_neg hi, List.length_nil]
      have h0 : N - i = 0 := by omega
      rw [h0]
      exact (Nat.div_eq_of_lt (by omega)).symm

/-- C6 counterexample: a buffer of 19,999 pixels (e.g. 19999×1) gives stride
`floor(19999 / min(10000, 19999)) = 1`, so the sampling loop visits every
pixel and collects 19,999 samples — more than the claimed 10,000 cap. -/
theorem sample_count_cap_cex :
    sampleStep 19999 = 1 ∧ (sampleIndices 19999).length = 19999 ∧ 10000 < 19999 := by
  have hstep : sampleStep 19999 = 1 := by norm_num [sampleStep, sampleSize]
  refine ⟨hstep, ?_, by norm_num⟩
  unfold sampleIndices
  rw [hstep, sampleIndicesAux_length 1 (by norm_num) 19999 19999 0 (by omega)]

/-- C6 amended: for every non-empty buffer the stride is
`floor(totalPixels / min(10000, totalPixels))` and is at least 1, the number
of collected samples is exactly `ceil(totalPixels / stride)`, and it is
bounded by 19,999 independently of the image resolution (the 10,000 figure is
only an approximate target and can be exceeded by almost a factor of two). -/
theorem sample_count_bounded (totalPixels : Nat) (h : 0 < totalPixels) :
    1 ≤ sampleStep totalPixels ∧
    (sampleIndices totalPixels).length
      = (totalPixels + sampleStep totalPixels - 1) / sampleStep totalPixels ∧
    (sampleIndices totalPixels).length ≤ 19999 := by
  have hmin0 : 0 < sampleSize totalPixels := by
    unfold sampleSize
    omega
  have hminle : sampleSize totalPixels ≤ totalPixels := by
    unfold sampleSize
    omega
  have hstep : 1 ≤ sampleStep totalPixels := (Nat.one_le_div_iff hmin0).mpr hminle
  have hlen := sampleIndicesAux_length (sampleStep totalPixels) hstep totalPixels totalPixels 0
    (by omega)
  have hNle : totalPixels ≤ 19999 * sampleStep totalPixels := by
    by_cases hcase : totalPixels ≤ 10000
    · have h1 : 19999 * 1 ≤ 19999 * sampleStep totalPixels :=
        Nat.mul_le_mul_left _ hstep
      omega
    · have hminval : sampleSize totalPixels = 10000 := by
        unfold sampleSize
        omega
      have hsval : sampleStep totalPixels = totalPixels / 10000 := by
        unfold sampleStep
        rw [hminval]
      rw [hsval]
      omega
  refine ⟨hstep, ?_, ?_⟩
  · unfold sampleIndices
    rw [hlen, Nat.sub_zero]
  · unfold sampleIndices
    rw [hlen]
    have hlt : totalPixels - 0 + sampleStep totalPixels - 1 < 20000 * sampleStep totalPixels := by
      omega
    have := (Nat.div_lt_iff_lt_mul (by omega : 0 < sampleStep totalPixels)).mpr hlt
    omega

/-- Exercises `sample_count_bounded` on the worst-case 19,999-pixel buffer. -/
theorem sample_count_bounded_witness :
    0 < 19999 ∧
    (1 ≤ sampleStep 19999 ∧
      (sampleIndices 19999).length = (19999 + sampleStep 19999 - 1) / sampleStep 19999 ∧
      (sampleIndices 19999).length ≤ 19999) :=
  ⟨by norm_num, sample_count_bounded 19999 (by norm_num)⟩

/-! ## Claim theorems: quantizer (C7) -/

theorem getD_mem (l : List Nat) (j : Nat) (h : j < l.length) : l.getD j 0 ∈ l := by
  rw [List.getD_eq_getElem l 0 h]
  exact List.getElem_mem h

theorem nearestAux_no_improve (pixel : Nat) :
    ∀ (cs : List Nat) (m : Int) (best : Nat),
      (∀ c ∈ cs, ¬ (pixDist pixel c < m)) → nearestAux pixel cs (some m) best = best := by
  intro cs
  induction cs with
  | nil => intro m best _; rfl
  | cons c cs ih =>
    intro m best h
    have hc : ¬ (pixDist pixel c < m) := h c (List.mem_cons_self c cs)
    have hcond : ltMin (pixDist pixel c) (some m) = false := by
      simp [ltMin, hc]
    simp only [nearestAux, hcond, Bool.false_eq_true, if_false]
    exact ih m best fun x hx => h x (List.mem_cons_of_mem c hx)

theorem nearestAux_improve (pixel : Nat) :
    ∀ (cs : List Nat) (m : Int) (best : Nat),
      (∃ c ∈ cs, pixDist pixel c < m) →
      ∃ i, i < cs.length ∧
        nearestAux pixel cs (some m) best = cs.getD i 0 ∧
        pixDist pixel (cs.getD i 0) < m ∧
        (∀ j, j < cs.length → pixDist pixel (cs.getD i 0) ≤ pixDist pixel (cs.getD j 0)) ∧
        (∀ j, j < i → pixDist pixel (cs.getD i 0) < pixDist pixel (cs.getD j 0)) := by
  intro cs
  induction cs with
  | nil =>
    intro m best h
    simp at h
  | cons c cs ih =>
    intro m best h
    by_cases hc : pixDist pixel c < m
    · have hcond : ltMin (pixDist pixel c) (some m) = true := by
        simp [ltMin, hc]
      have hred : nearestAux pixel (c :: cs) (some m) best
          = nearestAux pixel cs (some (pixDist pixel c)) c := by
        simp only [nearestAux, hcond, if_true]
      by_cases hex : ∃ x ∈ cs, pixDist pixel x < pixDist pixel c
      · obtain ⟨i, hi, heq, hlt, hmin, hstrict⟩ := ih (pixDist pixel c) c hex
        refine ⟨i + 1, by simpa using Nat.succ_lt_succ hi, ?_, ?_, ?_, ?_⟩
        · rw [hred]
          simpa [List.getD_cons_succ] using heq
        · simpa [List.getD_cons_succ] using lt_trans hlt hc
        · intro j hj
          cases j with
          | zero => simpa [List.getD_cons_succ] using le_of_lt hlt
          | succ j =>
            have hj2 : j < cs.length := by simpa using hj
            simpa [List.getD_cons_succ] using hmin j hj2
        · intro j hj
          cases j with
          | zero => simpa [List.getD_cons_succ] using hlt
          | succ j =>
            have hj2 : j < i := by omega
            simpa [List.getD_cons_succ] using hstrict j hj2
      · push_neg at hex
        have hnone : nearestAux pixel cs (some (pixDist pixel c)) c = c :=
          nearestAux_no_improve pixel cs (pixDist pixel c) c
            fun x hx => not_lt.mpr (hex x hx)
        refine ⟨0, by simp, ?_, ?_, ?_, ?_⟩
        · rw [hred, hnone]
          simp
        · simpa using hc
        · intro j hj
          cases j with
          | zero => simp
          | succ j =>
            have hj2 : j < cs.length := by simpa using hj
            simpa [List.getD_cons_succ] using hex (cs.getD j 0) (getD_mem cs j hj2)
        · intro j hj
          exact absurd hj (Nat.not_lt_zero j)
    · have hcond : ltMin (pixDist pixel c) (some m) = false := by
        simp [ltMin, hc]
      have hred : nearestAux pixel (c :: cs) (some m) best
          = nearestAux pixel cs (some m) best := by
        simp only [nearestAux, hcond, Bool.false_eq_true, if_false]
      obtain ⟨x, hx, hxlt⟩ := h
      have hx2 : x ∈ cs := by
        rcases List.mem_cons.mp hx with rfl | h2
        · exact absurd hxlt hc
        · exact h2
      obtain ⟨i, hi, heq, hlt, hmin, hstrict⟩ := ih m best ⟨x, hx2, hxlt⟩
      have hcm : m ≤ pixDist pixel c := not_lt.mp hc
      refine ⟨i + 1, by simpa using Nat.succ_lt_succ hi, ?_, ?_, ?_, ?_⟩
      · rw [hred]
        simpa [List.getD_cons_succ] using heq
      · simpa [List.getD_cons_succ] using hlt
      · intro j hj
        cases j with
        | zero => simpa [List.getD_cons_succ] using le_of_lt (lt_of_lt_of_le hlt hcm)
        | succ j =>
          have hj2 : j < cs.length := by simpa using hj
          simpa [List.getD_cons_succ] using hmin j hj2
      · intro j hj
        cases j with
        | zero => simpa [List.getD_cons_succ] using lt_of_lt_of_le hlt hcm
        | succ j =>
          have hj2 : j < i := by omega
          simpa [List.getD_cons_succ] using hstrict j hj2

/-- C7: for a non-empty palette the quantization loop returns a member of the
palette, namely the entry minimizing the (squared) Euclidean RGB distance to
the pixel with alpha ignored, and among equally distant entries the earliest
one in palette order. -/
theorem nearestColor_spec (palette : List Nat) (pixel : Nat) (hne : palette ≠ []) :
    nearestColor palette pixel ∈ palette ∧
    ∃ i, i < palette.length ∧
      nearestColor palette pixel = palette.getD i 0 ∧
      (∀ j, j < palette.length →
        pixDist pixel (nearestColor palette pixel) ≤ pixDist pixel (palette.getD j 0)) ∧
      (∀ j, j < i →
        pixDist pixel (nearestColor palette pixel) < pixDist pixel (palette.getD j 0)) := by
  obtain ⟨p, ps, rfl⟩ := List.exists_cons_of_ne_nil hne
  have hred : nearestColor (p :: ps) pixel = nearestAux pixel ps (some (pixDist pixel p)) p := by
    simp [nearestColor, nearestAux, ltMin]
  by_cases hex : ∃ x ∈ ps, pixDist pixel x < pixDist pixel p
  · obtain ⟨i, hi, heq, hlt, hmin, hstrict⟩ := nearestAux_improve pixel ps (pixDist pixel p) p hex
    constructor
    · rw [hred, heq]
      exact List.mem_cons_of_mem p (getD_mem ps i hi)
    · refine ⟨i + 1, by simpa using Nat.succ_lt_succ hi, ?_, ?_, ?_⟩
      · rw [hred, heq]
        simp [List.getD_cons_succ]
      · intro j hj
        rw [hred, heq]
        cases j with
        | zero => simpa [List.getD_cons_succ] using le_of_lt hlt
        | succ j =>
          have hj2 : j < ps.length := by simpa using hj
          simpa [List.getD_cons_succ] using hmin j hj2
      · intro j hj
        rw [hred, heq]
        cases j with
        | zero => simpa [List.getD_cons_succ] using hlt
        | succ j =>
          have hj2 : j < i := by omega
          simpa [List.getD_cons_succ] using hstrict j hj2
  · push_neg at hex
    have hnone : nearestAux pixel ps (some (pixDist pixel p)) p = p :=
      nearestAux_no_improve pixel ps (pixDist pixel p) p fun x hx => not_lt.mpr (hex x hx)
    constructor
    · rw [hred, hnone]
      exact List.mem_cons_self p ps
    · refine ⟨0, by simp, ?_, ?_, ?_⟩
      · rw [hred, hnone]
        simp
      · intro j hj
        rw [hred, hnone]
        cases j with
        | zero => simp
        | succ j =>
          have hj2 : j < ps.length := by simpa using hj
          simpa [List.getD_cons_succ] using hex (ps.getD j 0) (getD_mem ps j hj2)
      · intro j hj
        exact absurd hj (Nat.not_lt_zero j)

/-- Exercises `nearestColor_spec` on a concrete palette and pixel. -/
theorem nearestColor_spec_witness :
    ([1, 2, 3] : List Nat) ≠ [] ∧
    (nearestColor [1, 2, 3] 2 ∈ ([1, 2, 3] : List Nat) ∧
      ∃ i, i < ([1, 2, 3] : List Nat).length ∧
        nearestColor [1, 2, 3] 2 = ([1, 2, 3] : List Nat).getD i 0 ∧
        (∀ j, j < ([1, 2, 3] : List Nat).length →
          pixDist 2 (nearestColor [1, 2, 3] 2) ≤ pixDist 2 (([1, 2, 3] : List Nat).getD j 0)) ∧
        (∀ j, j < i →
          pixDist 2 (nearestColor [1, 2, 3] 2) < pixDist 2 (([1, 2, 3] : List Nat).getD j 0))) :=
  ⟨by decide, nearestColor_spec [1, 2, 3] 2 (by decide)⟩

/-! ## Claim theorems: palette extractor (C8) -/

theorem kmeansRound_length (samples cs : List RGB) :
    (kmeansRound samples cs).length = cs.length := by
  simp [kmeansRound]

theorem kmeansRounds_length (samples : List RGB) :
    ∀ (n : Nat) (cs : List RGB), (kmeansRounds samples n cs).length = cs.length := by
  intro n
  induction n with
  | zero => intro cs; rfl
  | succ n ih =>
    intro cs
    show (kmeansRounds samples n (kmeansRound samples cs)).length = cs.length
    rw [ih, kmeansRound_length]

/-- C8: the palette extractor always returns exactly `numColors` packed
colors, for every buffer (including degenerate ones) and every random draw —
it has no failure mode; a centroid whose cluster is empty in a round is kept
unchanged by that round; and the extraction is exactly 10 k-means rounds over
the sampled pixels with no early termination. -/
theorem extractPalette_total :
    (∀ (rawBuffer : Nat → Fin 256) (width height : Nat) (rand : Nat → Nat) (numColors : Nat),
      (extractPaletteFromImage rawBuffer width height rand numColors).length = numColors) ∧
    (∀ (samples cs : List RGB) (ci : Nat), ci < cs.length →
      clusterOf cs samples ci = [] →
      (kmeansRound samples cs).getD ci ⟨0, 0, 0⟩ = cs.getD ci ⟨0, 0, 0⟩) ∧
    (∀ (rawBuffer : Nat → Fin 256) (width height : Nat) (rand : Nat → Nat) (numColors : Nat),
      extractPaletteFromImage rawBuffer width height rand numColors
        = (kmeansRounds (samplesOf rawBuffer (width * height)) 10
            (initCentroids (samplesOf rawBuffer (width * height)) rand numColors)).map
              packARGB) := by
  refine ⟨?_, ?_, ?_⟩
  · intro buf w h rand k
    unfold extractPaletteFromImage
    simp [kmeansRounds_length, initCentroids]
  · intro samples cs ci hci hempty
    unfold kmeansRound
    have hlen2 : ci < ((List.range cs.length).map fun ci =>
        updateCentroid (clusterOf cs samples ci) (cs.getD ci ⟨0, 0, 0⟩)).length := by
      simpa using hci
    rw [List.getD_eq_getElem _ _ hlen2]
    rw [List.getElem_map]
    rw [List.getElem_range]
    rw [hempty]
    simp [updateCentroid]
  · intro buf w h rand k
    rfl

/-- Exercises `extractPalette_total` on a one-centroid, no-samples round. -/
theorem extractPalette_total_witness :
    ((0 : Nat) < ([⟨1, 2, 3⟩] : List RGB).length ∧ clusterOf [⟨1, 2, 3⟩] [] 0 = []) ∧
    (kmeansRound [] [⟨1, 2, 3⟩]).getD 0 ⟨0, 0, 0⟩ = ([⟨1, 2, 3⟩] : List RGB).getD 0 ⟨0, 0, 0⟩ :=
  ⟨⟨by decide, by decide⟩,
   extractPalette_total.2.1 [] [⟨1, 2, 3⟩] 0 (by decide) (by decide)⟩

/-! ## Claim theorems: alpha opacity of the dither path (C10) -/

theorem sum_le_mul_length (l : List Nat) (n : Nat) (h : ∀ x ∈ l, x ≤ n) :
    l.sum ≤ l.length * n := by
  simpa using List.sum_le_card_nsmul l n h

theorem jsRoundDiv_le (sum len n : Nat) (hlen : 0 < len) (hsum : sum ≤ len * n) :
    jsRoundDiv sum len ≤ n := by
  unfold jsRoundDiv
  have h2 : 2 * sum + len < (n + 1) * (2 * len) := by nlinarith
  have hlt := (Nat.div_lt_iff_lt_mul (by omega : 0 < 2 * len)).mpr h2
  omega

theorem updateCentroid_byte (cluster : List RGB) (old : RGB)
    (hcl : ∀ s ∈ cluster, s.r ≤ 255 ∧ s.g ≤ 255 ∧ s.b ≤ 255)
    (hold : old.r ≤ 255 ∧ old.g ≤ 255 ∧ old.b ≤ 255) :
    (updateCentroid cluster old).r ≤ 255 ∧ (updateCentroid cluster old).g ≤ 255 ∧
      (updateCentroid cluster old).b ≤ 255 := by
  unfold updateCentroid
  by_cases hl : cluster.length > 0
  · rw [if_pos hl]
    refine ⟨?_, ?_, ?_⟩
    · apply jsRoundDiv_le _ _ _ hl
      have hs := sum_le_mul_length (cluster.map RGB.r) 255 ?_
      · simpa using hs
      · intro x hx
        obtain ⟨s, hsmem, rfl⟩ := List.mem_map.mp hx
        exact (hcl s hsmem).1
    · apply jsRoundDiv_le _ _ _ hl
      have hs := sum_le_mul_length (cluster.map RGB.g) 255 ?_
      · simpa using hs
      · intro x hx
        obtain ⟨s, hsmem, rfl⟩ := List.mem_map.mp hx
        exact (hcl s hsmem).2.1
    · apply jsRoundDiv_le _ _ _ hl
      have hs := sum_le_mul_length (cluster.map RGB.b) 255 ?_
      · simpa using hs
      · intro x hx
        obtain ⟨s, hsmem, rfl⟩ := List.mem_map.mp hx
        exact (hcl s hsmem).2.2
  · rw [if_neg hl]
    exact hold

theorem getD_byte (cs : List RGB) (ci : Nat)
    (hcs : ∀ c ∈ cs, c.r ≤ 255 ∧ c.g ≤ 255 ∧ c.b ≤ 255) :
    (cs.getD ci ⟨0, 0, 0⟩).r ≤ 255 ∧ (cs.getD ci ⟨0, 0, 0⟩).g ≤ 255 ∧
      (cs.getD ci ⟨0, 0, 0⟩).b ≤ 255 := by
  by_cases hlt : ci < cs.length
  · rw [List.getD_eq_getElem _ _ hlt]
    exact hcs _ (List.getElem_mem hlt)
  · rw [List.getD_eq_default _ _ (by omega)]
    exact ⟨by norm_num, by norm_num, by norm_num⟩

theorem kmeansRound_byte (samples cs : List RGB)
    (hsamples : ∀ s ∈ samples, s.r ≤ 255 ∧ s.g ≤ 255 ∧ s.b ≤ 255)
    (hcs : ∀ c ∈ cs, c.r ≤ 255 ∧ c.g ≤ 255 ∧ c.b ≤ 255) :
    ∀ c ∈ kmeansRound samples cs, c.r ≤ 255 ∧ c.g ≤ 255 ∧ c.b ≤ 255 := by
  intro c hc
  unfold kmeansRound at hc
  obtain ⟨ci, _, rfl⟩ := List.mem_map.mp hc
  apply updateCentroid_byte
  · intro s hs
    exact hsamples s (List.mem_of_mem_filter hs)
  · exact getD_byte cs ci hcs

theorem kmeansRounds_byte (samples : List RGB)
    (hsamples : ∀ s ∈ samples, s.r ≤ 255 ∧ s.g ≤ 255 ∧ s.b ≤ 255) :
    ∀ (n : Nat) (cs : List RGB),
      (∀ c ∈ cs, c.r ≤ 255 ∧ c.g ≤ 255 ∧ c.b ≤ 255) →
      ∀ c ∈ kmeansRounds samples n cs, c.r ≤ 255 ∧ c.g ≤ 255 ∧ c.b ≤ 255 := by
  intro n
  induction n with
  | zero => intro cs hcs c hc; exact hcs c hc
  | succ n ih =>
    intro cs hcs c hc
    exact ih (kmeansRound samples cs) (kmeansRound_byte samples cs hsamples hcs) c hc

theorem samplesOf_byte (rawBuffer : Nat → Fin 256) (totalPixels : Nat) :
    ∀ s ∈ samplesOf rawBuffer totalPixels, s.r ≤ 255 ∧ s.g ≤ 255 ∧ s.b ≤ 255 := by
  intro s hs
  obtain ⟨i, _, rfl⟩ := List.mem_map.mp hs
  refine ⟨?_, ?_, ?_⟩ <;> exact Nat.lt_succ_iff.mp (Fin.isLt _)

theorem initCentroids_byte (samples : List RGB) (rand : Nat → Nat) (numColors : Nat)
    (hsamples : ∀ s ∈ samples, s.r ≤ 255 ∧ s.g ≤ 255 ∧ s.b ≤ 255) :
    ∀ c ∈ initCentroids samples rand numColors,
      c.r ≤ 255 ∧ c.g ≤ 255 ∧ c.b ≤ 255 := by
  intro c hc
  unfold initCentroids at hc
  obtain ⟨i, _, rfl⟩ := List.mem_map.mp hc
  exact getD_byte samples (rand i) hsamples

theorem chA_packARGB (c : RGB) (hr : c.r ≤ 255) (hg : c.g ≤ 255) (hb : c.b ≤ 255) :
    chA (packARGB c) = 255 := by
  apply Nat.eq_of_testBit_eq
  intro i
  have p1 : (255 : Nat) < 2 ^ (8 + i) := by
    have h8 : (2 : Nat) ^ 8 ≤ 2 ^ (8 + i) := Nat.pow_le_pow_right (by norm_num) (by omega)
    omega
  have p2 : (255 : Nat) < 2 ^ (16 + i) := by
    have h16 : (2 : Nat) ^ 16 ≤ 2 ^ (16 + i) := Nat.pow_le_pow_right (by norm_num) (by omega)
    omega
  have p3 : (255 : Nat) < 2 ^ (24 + i) := by
    have h24 : (2 : Nat) ^ 24 ≤ 2 ^ (24 + i) := Nat.pow_le_pow_right (by norm_num) (by omega)
    omega
  have hr2 : c.r.testBit (8 + i) = false := Nat.testBit_lt_two_pow (lt_of_le_of_lt hr p1)
  have hg2 : c.g.testBit (16 + i) = false := Nat.testBit_lt_two_pow (lt_of_le_of_lt hg p2)
  have hb2 : c.b.testBit (24 + i) = false := Nat.testBit_lt_two_pow (lt_of_le_of_lt hb p3)
  have e1 : 24 + i - 24 = i := by omega
  have e2 : 24 + i - 16 = 8 + i := by omega
  have e3 : 24 + i - 8 = 16 + i := by omega
  have l1 : 24 ≤ 24 + i := by omega
  have l2 : 16 ≤ 24 + i := by omega
  have l3 : 8 ≤ 24 + i := by omega
  have hkey : Nat.testBit 4278190080 (24 + i) = Nat.testBit 255 i := by
    have hlit : (4278190080 : Nat) = 255 <<< 24 := by norm_num [Nat.shiftLeft_eq]
    rw [hlit, Nat.testBit_shiftLeft]
    simp [l1, e1]
  simp [chA, packARGB, Nat.testBit_and, Nat.testBit_shiftRight, Nat.testBit_or,
    Nat.testBit_shiftLeft, e1, e2, e3, l1, l2, l3, hr2, hg2, hb2, hkey]

theorem nearestAux_mem (pixel : Nat) :
    ∀ (cs : List Nat) (m : Option Int) (best : Nat),
      nearestAux pixel cs m best = best ∨ nearestAux pixel cs m best ∈ cs := by
  intro cs
  induction cs with
  | nil => intro m best; left; rfl
  | cons c cs ih =>
    intro m best
    cases hcond : ltMin (pixDist pixel c) m
    · have hred : nearestAux pixel (c :: cs) m best = nearestAux pixel cs m best := by
        simp [nearestAux, hcond]
      rcases ih m best with h | h
      · left
        rw [hred, h]
      · right
        rw [hred]
        exact List.mem_cons_of_mem _ h
    · have hred : nearestAux pixel (c :: cs) m best
          = nearestAux pixel cs (some (pixDist pixel c)) c := by
        simp [nearestAux, hcond]
      rcases ih (some (pixDist pixel c)) c with h | h
      · right
        rw [hred, h]
        exact List.mem_cons_self c cs
      · right
        rw [hred]
        exact List.mem_cons_of_mem _ h

theorem nearestColor_mem (palette : List Nat) (pixel : Nat) (hne : palette ≠ []) :
    nearestColor palette pixel ∈ palette := by
  unfold nearestColor
  rcases nearestAux_mem pixel palette none (palette.getD 0 0) with h | h
  · rw [h]
    obtain ⟨p, ps, rfl⟩ := List.exists_cons_of_ne_nil hne
    simp
  · exact h

/-- C10: every color of the extracted palette is packed with alpha `0xff`,
and since quantization replaces each pixel of the dithered buffer wholesale
with a palette member, the alpha byte (`4*i + 3`) of every pixel of the final
RGBA output buffer is 255, regardless of the input's transparency. -/
theorem dither_output_alpha255 (rawBuffer : Nat → Fin 256) (width height : Nat)
    (rand : Nat → Nat) (dithered : Nat → Nat) (i : Nat) :
    (∀ p ∈ extractPaletteFromImage rawBuffer width height rand 16, chA p = 255) ∧
    rgbaByte (quantizedData (extractPaletteFromImage rawBuffer width height rand 16) dithered)
      (4 * i + 3) = 255 := by
  have hbytes : ∀ c ∈ kmeansRounds (samplesOf rawBuffer (width * height)) 10
      (initCentroids (samplesOf rawBuffer (width * height)) rand 16),
      c.r ≤ 255 ∧ c.g ≤ 255 ∧ c.b ≤ 255 :=
    kmeansRounds_byte _ (samplesOf_byte rawBuffer (width * height)) 10 _
      (initCentroids_byte _ rand 16 (samplesOf_byte rawBuffer (width * height)))
  have hpal : ∀ p ∈ extractPaletteFromImage rawBuffer width height rand 16, chA p = 255 := by
    intro p hp
    unfold extractPaletteFromImage at hp
    obtain ⟨c, hc, rfl⟩ := List.mem_map.mp hp
    obtain ⟨h1, h2, h3⟩ := hbytes c hc
    exact chA_packARGB c h1 h2 h3
  refine ⟨hpal, ?_⟩
  have hne : extractPaletteFromImage rawBuffer width height rand 16 ≠ [] := by
    intro hnil
    have hcl := congrArg List.length hnil
    unfold extractPaletteFromImage at hcl
    simp [kmeansRounds_length, initCentroids] at hcl
  have h1 : (4 * i + 3) / 4 = i := by omega
  have h2 : (4 * i + 3) % 4 = 3 := by omega
  simp only [rgbaByte, h1, h2]
  norm_num
  unfold quantizedData
  exact hpal _ (nearestColor_mem _ _ hne)

/-- Exercises `dither_output_alpha255` on a concrete 1×1 black buffer. -/
theorem dither_output_alpha255_witness :
    rgbaByte
      (quantizedData (extractPaletteFromImage (fun _ => (0 : Fin 256)) 1 1 (fun _ => 0) 16)
        (fun _ => 0)) 3 = 255 :=
  (dither_output_alpha255 (fun _ => (0 : Fin 256)) 1 1 (fun _ => 0) (fun _ => 0) 0).2

/-! ## Claim theorems: cache-coherent fetcher (C1, C2, C4) -/

/-- C1: `downloadImage` is total over every environment (no exception ever
reaches the caller), and every run either produces exactly the fallback —
the original input URL verbatim with `blurDataURL` absent — or did not fall
back, in which case it returns the cache URL with a placeholder and every
step succeeded (cache hit, or successful fetch with `ok` status, a body, and
successful processing).  Contrapositively, a failure of any step yields the
fallback. -/
theorem downloadImage_fallback_total (env : Env) (url : String) :
    ((downloadImage env url).url = url ∧ (downloadImage env url).blurDataURL = none ∧
      (downloadImage env url).fellBack = true) ∨
    ((downloadImage env url).fellBack = false ∧
      (downloadImage env url).url = fileURLOf env url ∧
      (∃ b, (downloadImage env url).blurDataURL = some b ∧
        env.placeholder (filepathOf env url) = some b) ∧
      (env.fileExists (filepathOf env url) = true ∨
        (∃ resp, env.fetch url = some resp ∧ resp.ok = true ∧ resp.hasBody = true ∧
          env.processOk = true))) := by
  simp only [downloadImage]
  split
  next => exact Or.inl ⟨rfl, rfl, rfl⟩
  next h1 =>
    split
    next h2 =>
      split
      next b hb => exact Or.inr ⟨rfl, rfl, ⟨b, rfl, hb⟩, Or.inl h2⟩
      next hb => exact Or.inl ⟨rfl, rfl, rfl⟩
    next h2 =>
      split
      next hf => exact Or.inl ⟨rfl, rfl, rfl⟩
      next resp hresp =>
        split
        next hok => exact Or.inl ⟨rfl, rfl, rfl⟩
        next hok =>
          split
          next hbody => exact Or.inl ⟨rfl, rfl, rfl⟩
          next hbody =>
            split
            next hproc => exact Or.inl ⟨rfl, rfl, rfl⟩
            next hproc =>
              split
              next b hb =>
                refine Or.inr ⟨rfl, rfl, ⟨b, rfl, hb⟩, Or.inr ⟨resp, hresp, ?_, ?_, ?_⟩⟩
                · simpa using hok
                · simpa using hbody
                · simpa using hproc
              next hb => exact Or.inl ⟨rfl, rfl, rfl⟩

/-- C2 counterexample: with the cache file present and placeholder generation
failing, `downloadImage` takes the catch-all and returns the original URL —
not the cache URL with `blurDataURL` merely dropped, as the claim states. -/
theorem placeholder_failure_cex :
    envPhFail.fileExists (filepathOf envPhFail "https://e/img.png?t=1") = true ∧
    envPhFail.placeholder (filepathOf envPhFail "https://e/img.png?t=1") = none ∧
    (downloadImage envPhFail "https://e/img.png?t=1").url = "https://e/img.png?t=1" ∧
    (downloadImage envPhFail "https://e/img.png?t=1").fellBack = true ∧
    (downloadImage envPhFail "https://e/img.png?t=1").url
      ≠ fileURLOf envPhFail "https://e/img.png?t=1" := by
  refine ⟨rfl, rfl, rfl, rfl, ?_⟩
  decide

/-- C2 amended: a placeholder-generation failure on a cache hit propagates to
the catch-all: `downloadImage` falls back to the original URL (with
`blurDataURL` absent and no fetch performed), rather than returning the cache
URL without a placeholder. -/
theorem placeholder_failure_falls_back (env : Env) (url : String)
    (hdir : env.fileExists (publicImagesDir env) = true)
    (hcache : env.fileExists (filepathOf env url) = true)
    (hph : env.placeholder (filepathOf env url) = none) :
    downloadImage env url = ⟨url, none, false, true⟩ := by
  simp [downloadImage, hdir, hcache, hph]

/-- Exercises `placeholder_failure_falls_back` on a concrete environment. -/
theorem placeholder_failure_falls_back_witness :
    (envPhFail.fileExists (publicImagesDir envPhFail) = true ∧
      envPhFail.fileExists (filepathOf envPhFail "https://e/a.png") = true ∧
      envPhFail.placeholder (filepathOf envPhFail "https://e/a.png") = none) ∧
    downloadImage envPhFail "https://e/a.png" = ⟨"https://e/a.png", none, false, true⟩ :=
  ⟨⟨rfl, rfl, rfl⟩, placeholder_failure_falls_back envPhFail "https://e/a.png" rfl rfl rfl⟩

theorem downloadImage_success_facts (env : Env) (url : String)
    (h : (downloadImage env url).fellBack = false) :
    (∃ b, env.placeholder (filepathOf env url) = some b ∧
      (downloadImage env url).url = fileURLOf env url) ∧
    (env.fileExists (publicImagesDir env) = true ∨ env.mkdirOk = true) := by
  revert h
  simp only [downloadImage]
  split
  next hcond => intro h; simp at h
  next hcond =>
    have hdirpass : env.fileExists (publicImagesDir env) = true ∨ env.mkdirOk = true := by
      cases hfe : env.fileExists (publicImagesDir env)
      · cases hmk : env.mkdirOk
        · exfalso
          apply hcond
          rw [hfe, hmk]
          rfl
        · exact Or.inr rfl
      · exact Or.inl rfl
    split
    next h2 =>
      split
      next b hb => intro _; exact ⟨⟨b, hb, rfl⟩, hdirpass⟩
      next hb => intro h; simp at h
    next h2 =>
      split
      next => intro h; simp at h
      next resp hresp =>
        split
        next => intro h; simp at h
        next =>
          split
          next => intro h; simp at h
          next =>
            split
            next => intro h; simp at h
            next =>
              split
              next b hb => intro _; exact ⟨⟨b, hb, rfl⟩, hdirpass⟩
              next => intro h; simp at h

/-- C4: if a run of `downloadImage` succeeded (did not fall back), then a
second run in the same environment with the cache file now present performs
no network fetch and returns the identical `url`. -/
theorem downloadImage_cached_idempotent (env : Env) (url : String)
    (h : (downloadImage env url).fellBack = false) :
    (downloadImage (cacheAdded env url) url).fetched = false ∧
    (downloadImage (cacheAdded env url) url).url = (downloadImage env url).url := by
  obtain ⟨⟨b, hb, hurl⟩, hdirpass⟩ := downloadImage_success_facts env url h
  have hkey : filepathOf (cacheAdded env url) url = filepathOf env url := rfl
  have hfurl : fileURLOf (cacheAdded env url) url = fileURLOf env url := rfl
  have hdir2 : publicImagesDir (cacheAdded env url) = publicImagesDir env := rfl
  have hcond1 : (!(cacheAdded env url).fileExists (publicImagesDir (cacheAdded env url))
      && !(cacheAdded env url).mkdirOk) = false := by
    rcases hdirpass with hfe | hmk
    · have hfe2 : (cacheAdded env url).fileExists (publicImagesDir env) = true := by
        simp [cacheAdded, hfe]
      simp [hdir2, hfe2]
    · simp [cacheAdded, hmk]
  have hcache : (cacheAdded env url).fileExists (filepathOf (cacheAdded env url) url) = true := by
    simp [cacheAdded]
    exact Or.inl rfl
  have hph2 : (cacheAdded env url).placeholder (filepathOf (cacheAdded env url) url)
      = some b := by
    simpa [cacheAdded, hkey] using hb
  have hrun2 : downloadImage (cacheAdded env url) url
      = ⟨fileURLOf env url, some b, false, false⟩ := by
    simp [downloadImage, hcond1, hcache, hph2, hfurl]
  rw [hrun2, hurl]
  exact ⟨rfl, rfl⟩

/-- Exercises `downloadImage_cached_idempotent` on a concrete succeeding
environment. -/
theorem downloadImage_cached_idempotent_witness :
    (downloadImage envHappy "https://e/a.png?t=1").fellBack = false ∧
    ((downloadImage (cacheAdded envHappy "https://e/a.png?t=1") "https://e/a.png?t=1").fetched
        = false ∧
      (downloadImage (cacheAdded envHappy "https://e/a.png?t=1") "https://e/a.png?t=1").url
        = (downloadImage envHappy "https://e/a.png?t=1").url) :=
  ⟨rfl, downloadImage_cached_idempotent envHappy "https://e/a.png?t=1" rfl⟩
